import Mathlib

/-!
Verification of the transformation-component framework, model-config parsing,
and Fourier/saturation utilities of this repository, as a shallow embedding.

Python dictionaries are embedded as association lists (`List (String × _)`)
that keep insertion order; dictionary lookup is `List.lookup`.  Exceptions are
embedded with `Except`.  NumPy floating-point arrays are embedded as lists of
real numbers.
-/

/-- A prior-distribution configuration dictionary, e.g.
`\x7b"dist": "HalfNormal", "kwargs": \x7b"sigma": 1\x7d\x7d`, possibly carrying an extra
`dims` entry (the tests add one by in-place mutation). -/
structure PriorConfig where
  dist : String
  kwargs : List (String × Int)
  dims : Option String := none
deriving Repr, DecidableEq

/-- A symbolic tensor expression: the data argument, a named model random
variable, integer literals, sums and products.  This embeds the computation
graph nodes a transformation's `function` builds. -/
inductive TExpr where
  | lit : Int → TExpr
  | dataRef : TExpr
  | rv : String → TExpr
  | add : TExpr → TExpr → TExpr
  | mul : TExpr → TExpr → TExpr
deriving Repr, DecidableEq

/-- Evaluate a symbolic expression given an environment for the model random
variables (as `pm.do` fixes them) and a value for the data argument. -/
def evalExpr (env : String → Int) (x : Int) : TExpr → Int
  | .lit n => n
  | .dataRef => x
  | .rv s => env s
  | .add a b => evalExpr env x a + evalExpr env x b
  | .mul a b => evalExpr env x a * evalExpr env x b

/-- Modelled from the spec: a subclass of `Transformation` from
`pymc_marketing/mmm/components/base.py` (that module is not under `src/`; only
its test suite is).  Per the spec it binds a mathematical function to named
Bayesian priors: `pfx` is the class-level `prefix` attribute, `funParams` the
parameter names of its `function` as written (possibly starting with `self`),
`default_priors` the class-level prior dictionary, and `function` the symbolic
function receiving the data argument and keyword arguments named after the
remaining parameters. -/
structure TransformationClass where
  pfx : String
  funParams : List String
  default_priors : List (String × PriorConfig)
  function : TExpr → List (String × TExpr) → TExpr

/-- Modelled from the spec: a constructed `Transformation` instance, holding
the resolved `function_priors` dictionary. -/
structure Transformation where
  pfx : String
  funParams : List String
  function_priors : List (String × PriorConfig)
  function : TExpr → List (String × TExpr) → TExpr

/-- Modelled from the spec: the reserved names for the function's leading data
parameter (`RESERVED_DATA_PARAMETER_NAMES` referenced by the test suite's
`MissingDataParameter` test, which accepts `x` and rejects `spends`). -/
def RESERVED_DATA_PARAMETER_NAMES : List String := ["x", "data"]

/-- Drop a leading `self` parameter of a method-like function. -/
def dropSelf : List String → List String
  | "self" :: rest => rest
  | ps => ps

/-- The function's parameter names excluding `self` and the leading data
parameter: these are the parameters that need priors. -/
def distributionParams (ps : List String) : List String :=
  (dropSelf ps).drop 1

/-- The keys of the class-level `default_priors` dictionary. -/
def priorKeys (c : TransformationClass) : List String :=
  c.default_priors.map Prod.fst

/-- Function parameters that have no default prior (Python set difference
`parameters - priors`). -/
def missing_priors (c : TransformationClass) : List String :=
  (distributionParams c.funParams).filter (fun p => !(priorKeys c).contains p)

/-- Default-prior keys that are not function parameters (Python set difference
`priors - parameters`). -/
def missing_parameters (c : TransformationClass) : List String :=
  (priorKeys c).filter (fun p => !(distributionParams c.funParams).contains p)

/-- Whether the function's first parameter after `self` is one of the reserved
data-parameter names. -/
def hasDataParameter (c : TransformationClass) : Bool :=
  match dropSelf c.funParams with
  | [] => false
  | d :: _ => RESERVED_DATA_PARAMETER_NAMES.contains d

/-- The exceptions `Transformation.__init__` can raise.
`parameterPrior` embeds `ParameterPriorException`, carrying the two sets its
message reports (missing default priors, then missing function parameters);
`missingDataParameter` embeds `MissingDataParameter`. -/
inductive ConstructError where
  | parameterPrior (missingPriors missingParams : List String)
  | missingDataParameter
deriving Repr, DecidableEq

/-- Python dict merge `\x7b**base, **upd\x7d`: keys of `base` in order with values
overridden by `upd` where present, then the keys of `upd` absent from `base`. -/
def dictMerge (base upd : List (String × PriorConfig)) : List (String × PriorConfig) :=
  base.map (fun p => (p.1, (List.lookup p.1 upd).getD p.2))
    ++ upd.filter (fun q => (List.lookup q.1 base).isNone)

/-- Modelled from the spec: `Transformation.__init__` for a subclass that
defines `prefix`, `function` and `default_priors`.  It validates completeness
and consistency between the function signature and the priors at construction
time — raising `ParameterPriorException` with the two difference sets when the
parameter names and prior keys disagree, and `MissingDataParameter` when the
leading data parameter is not one of the reserved names — and otherwise stores
`function_priors` as a deep copy of the defaults merged with the `priors`
argument. -/
def mkTransformation (c : TransformationClass) (priors : List (String × PriorConfig)) :
    Except ConstructError Transformation :=
  if missing_priors c ≠ [] ∨ missing_parameters c ≠ [] then
    .error (.parameterPrior (missing_priors c) (missing_parameters c))
  else if ¬ hasDataParameter c then
    .error .missingDataParameter
  else
    .ok { pfx := c.pfx
          funParams := c.funParams
          function_priors := dictMerge c.default_priors priors
          function := c.function }

/-- Modelled from the spec: the `variable_mapping` property — the name-mapping
between abstract parameter names and model-scoped variable names, built by
prepending the instance's prefix and an underscore. -/
def variable_mapping (t : Transformation) : List (String × String) :=
  t.function_priors.map (fun p => (p.1, t.pfx ++ "_" ++ p.1))

/-- Modelled from the spec: the `model_config` property — `function_priors`
re-keyed through `variable_mapping`. -/
def model_config (t : Transformation) : List (String × PriorConfig) :=
  t.function_priors.map
    (fun p => ((List.lookup p.1 (variable_mapping t)).getD p.1, p.2))

/-- Modelled from the spec: `update_priors` — for each entry of
`variable_mapping` whose model-scoped name occurs in the argument dictionary,
take that prior for the abstract parameter; warn (second component `true`)
when no entry matched; merge the matches over `function_priors`. -/
def update_priors (t : Transformation) (priors : List (String × PriorConfig)) :
    Transformation × Bool :=
  let new_priors := (variable_mapping t).filterMap
    (fun pv => (List.lookup pv.2 priors).map (fun cfg => (pv.1, cfg)))
  ({ t with function_priors := dictMerge t.function_priors new_priors },
    new_priors.isEmpty)

/-- A probabilistic model: the named random variables registered in it, with
the prior configuration each was created from. -/
structure PModel where
  rvs : List (String × PriorConfig)
deriving Repr, DecidableEq

/-- The `TypeError` PyMC raises when a random variable is created with no
model on the context stack. -/
structure TypeErrorE where
  msg : String
deriving Repr, DecidableEq

/-- Fallback prior configuration (never reached on well-formed instances). -/
def emptyPrior : PriorConfig := { dist := "", kwargs := [] }

/-- Modelled from the spec: `apply` — given the context stack of models, with
no model on the stack creating the random variables raises a `TypeError` and
the stack is untouched; otherwise one random variable per entry of
`variable_mapping` is registered in the innermost model under its model-scoped
name with the prior of its abstract parameter, and the transformation's
function is applied to the data and those variables (passed as keyword
arguments named after the abstract parameters). -/
def apply_stack (t : Transformation) (stack : List PModel) (x : TExpr) :
    List PModel × Except TypeErrorE TExpr :=
  match stack with
  | [] => ([], .error { msg := "No model on context stack, needed to instantiate a random variable." })
  | m :: rest =>
    let regs := (variable_mapping t).map
      (fun pv => (pv.2, (List.lookup pv.1 t.function_priors).getD emptyPrior))
    let kwargs := (variable_mapping t).map (fun pv => (pv.1, TExpr.rv pv.2))
    ({ rvs := m.rvs ++ regs } :: rest, .ok (t.function x kwargs))

/-- Whether `pat` is a contiguous run at some position of `s`. -/
def listIsInfixOf (pat : List Char) : List Char → Bool
  | [] => pat.isEmpty
  | c :: rest => pat.isPrefixOf (c :: rest) || listIsInfixOf pat rest

/-- Substring test: `pat` occurs somewhere in `s` (as a contiguous run of
characters). -/
def strContains (s pat : String) : Prop :=
  listIsInfixOf pat.data s.data = true

/-- Placeholder prior used in the construction-validation tests. -/
def dummyPrior : PriorConfig := { dist := "dummy", kwargs := [] }

/-- The class of `test_new_transformation_missing_priors`: a method-like
function `(self, x, a, b)` with a default prior only for `a`. -/
def missingPriorClass : TransformationClass :=
  { pfx := "new"
    funParams := ["self", "x", "a", "b"]
    default_priors := [("a", dummyPrior)]
    function := fun x _ => x }

/-- The `HalfNormal(sigma)` prior configuration used by the test fixture. -/
def halfNormal (s : Int) : PriorConfig := { dist := "HalfNormal", kwargs := [("sigma", s)] }

/-- The `NewTransformation` fixture class: prefix `new`, method-like function
`(self, x, a, b) ↦ a * b * x`, and `HalfNormal(1)` default priors for `a` and
`b`. -/
def newTransformationClass : TransformationClass :=
  { pfx := "new"
    funParams := ["self", "x", "a", "b"]
    default_priors := [("a", halfNormal 1), ("b", halfNormal 1)]
    function := fun x kw =>
      .mul ((List.lookup "a" kw).getD (.lit 0))
        (.mul ((List.lookup "b" kw).getD (.lit 0)) x) }

/-- The `new_transformation` fixture instance, as its class constructs it with
no prior overrides. -/
def new_transformation : Transformation :=
  { pfx := "new"
    funParams := ["self", "x", "a", "b"]
    function_priors := [("a", halfNormal 1), ("b", halfNormal 1)]
    function := newTransformationClass.function }

/-- The heap of prior-configuration dictionary objects: one cell per allocated
Python dict, addressed by its index. -/
abbrev Heap := List PriorConfig

/-- Read the dictionary stored at address `a`. -/
def heapRead (h : Heap) (a : Nat) : PriorConfig := List.getD h a emptyPrior

/-- Modelled from the spec: constructing an instance deep-copies the
class-level `default_priors` (`test_change_instance_function_priors_has_no_impact`
relies on this): each class-level prior dictionary is read and a fresh copy is
allocated at the end of the heap for the instance's own `function_priors`. -/
def construct_priors : Heap → List (String × Nat) → Heap × List (String × Nat)
  | h, [] => (h, [])
  | h, d :: rest =>
    ((construct_priors (h ++ [heapRead h d.2]) rest).1,
      (d.1, h.length) :: (construct_priors (h ++ [heapRead h d.2]) rest).2)

/-- The in-place mutation the test performs: add a `dims` entry to every prior
dictionary the instance's `function_priors` points to. -/
def add_dims_all (dim : String) : Heap → List (String × Nat) → Heap
  | h, [] => h
  | h, d :: rest =>
    add_dims_all dim (h.set d.2 { heapRead h d.2 with dims := some dim }) rest

/-- A typed prior distribution (`pymc_marketing.prior.Prior`). -/
structure Prior where
  dist : String
  kwargs : List (String × Int)
deriving Repr, DecidableEq

/-- Raw (non-`Prior`) configuration data as it appears in a model-config
dictionary: either a dictionary carrying a `dist` name with keyword arguments,
or some other plain data. -/
inductive RawConfig where
  | withDist : String → List (String × Int) → RawConfig
  | other : String → RawConfig
deriving Repr, DecidableEq

/-- Modelled from the spec: `Prior.from_json` from `pymc_marketing/prior.py`
(not under `src/`): converts plain data carrying a `dist` name into a typed
prior distribution, and fails with an error on anything else. -/
def Prior.from_json : RawConfig → Except String Prior
  | .withDist d kw => .ok { dist := d, kwargs := kw }
  | .other desc => .error ("Unable to parse prior: " ++ desc)

/-- A value of the model-config dictionary: either already a `Prior` instance
or raw data. -/
inductive MCValue where
  | priorV : Prior → MCValue
  | rawV : RawConfig → MCValue
deriving Repr, DecidableEq

/-- The `handle_prior_config` closure of `parse_model_config`
(`src/pymc_marketing/model_config.py`): returns the parsed value (`none` on
the fall-through failure path, as the Python function returns `None`),
the parse error recorded for the name, and the deprecation warning emitted. -/
def handle_prior_config (non_distributions : List String) (name : String)
    (prior_config : MCValue) : Option MCValue × Option String × Option String :=
  if non_distributions.contains name then (some prior_config, none, none)
  else
    match prior_config with
    | .priorV _ => (some prior_config, none, none)
    | .rawV raw =>
      match Prior.from_json raw with
      | .error e => (none, some ("Parameter " ++ name ++ ": " ++ e), none)
      | .ok dist =>
        (some (.priorV dist), none,
          some (name ++ " is automatically converted to " ++ dist.dist
            ++ ". Use the Prior class to avoid this warning."))

/-- The `ModelConfigError` exception; it carries the collected parse errors
its message is built from. -/
structure ModelConfigError where
  errors : List String
deriving Repr, DecidableEq

/-- The message `parse_model_config` raises `ModelConfigError` with: the
number of errors followed by every collected error. -/
def renderModelConfigError (e : ModelConfigError) : String :=
  toString e.errors.length
    ++ " errors occurred while parsing model configuration. Errors: "
    ++ String.intercalate ", " e.errors

/-- The function `parse_model_config` (`src/pymc_marketing/model_config.py`): handle every
entry (collecting parse errors and deprecation warnings in order), then raise
`ModelConfigError` when any entry failed, otherwise return the handled
dictionary.  The second component is the list of emitted warnings. -/
def parse_model_config (model_config : List (String × MCValue))
    (non_distributions : List String) :
    Except ModelConfigError (List (String × Option MCValue)) × List String :=
  let parse_errors := model_config.filterMap
    (fun nv => (handle_prior_config non_distributions nv.1 nv.2).2.1)
  let warnings := model_config.filterMap
    (fun nv => (handle_prior_config non_distributions nv.1 nv.2).2.2)
  let result := model_config.map
    (fun nv => (nv.1, (handle_prior_config non_distributions nv.1 nv.2).1))
  if parse_errors.isEmpty then (.ok result, warnings)
  else (.error { errors := parse_errors }, warnings)

/-- Stated from claim C6: the expected parsed value of an entry — values whose
key is excluded via `non_distributions` and values that are already `Prior`
instances unchanged, every other value replaced by the typed prior
`Prior.from_json` yields (`none` when parsing fails). -/
def spec_parsed_value (non_distributions : List String) (nv : String × MCValue) :
    Option MCValue :=
  if non_distributions.contains nv.1 then some nv.2
  else
    match nv.2 with
    | .priorV _ => some nv.2
    | .rawV raw =>
      match Prior.from_json raw with
      | .error _ => none
      | .ok dist => some (.priorV dist)

/-- Stated from claim C7: an entry fails parsing when it is not excluded via
`non_distributions`, is not already a `Prior`, and `Prior.from_json` fails;
the recorded error names the parameter and the underlying error. -/
def spec_parse_failure (non_distributions : List String) (nv : String × MCValue) :
    Option String :=
  if non_distributions.contains nv.1 then none
  else
    match nv.2 with
    | .priorV _ => none
    | .rawV raw =>
      match Prior.from_json raw with
      | .error e => some ("Parameter " ++ nv.1 ++ ": " ++ e)
      | .ok _ => none

/-- Stated from claim C6: the deprecation warning emitted for an entry — one
for each value converted through `Prior.from_json`. -/
def spec_deprecation_warning (non_distributions : List String)
    (nv : String × MCValue) : Option String :=
  if non_distributions.contains nv.1 then none
  else
    match nv.2 with
    | .priorV _ => none
    | .rawV raw =>
      match Prior.from_json raw with
      | .error _ => none
      | .ok dist => some (nv.1 ++ " is automatically converted to " ++ dist.dist
          ++ ". Use the Prior class to avoid this warning.")

/-- The docstring example of `parse_model_config`: a raw `Normal`
configuration, an existing `Prior` instance, and a non-distribution entry. -/
def exampleConfig : List (String × MCValue) :=
  [("alpha", .rawV (.withDist "Normal" [("mu", 0), ("sigma", 1)])),
   ("beta", .priorV { dist := "HalfNormal", kwargs := [] }),
   ("tvp_intercept", .rawV (.other "Some other configuration"))]

/-- The erroring docstring example: two unparsable entries around a valid
one. -/
def badConfig : List (String × MCValue) :=
  [("alpha", .rawV (.other "Non distribution")),
   ("beta", .rawV (.withDist "Normal" [])),
   ("gamma", .rawV (.other "Completely wrong"))]

/-- The function `generate_fourier_modes` (`src/pymmmc/utils.py`): rejects `n_order < 1`,
otherwise builds, for each order `1..n_order`, a `sin_order_k` column holding
`sin(2*pi*periods*k)` and then a `cos_order_k` column holding
`cos(2*pi*periods*k)` (the dictionary comprehension iterates orders outermost
and `("sin", "cos")` innermost, so the columns interleave). -/
noncomputable def generate_fourier_modes (periods : List ℝ) (n_order : Int) :
    Except String (List (String × List ℝ)) :=
  if n_order < 1 then .error "n_order must be greater than or equal to 1"
  else .ok (((List.range n_order.toNat).map (fun i => i + 1)).flatMap
    (fun (order : Nat) =>
      [("sin_order_" ++ toString order,
        periods.map (fun t => Real.sin (2 * Real.pi * t * (order : ℝ)))),
       ("cos_order_" ++ toString order,
        periods.map (fun t => Real.cos (2 * Real.pi * t * (order : ℝ))))]))

/-- The inverse map the saturation test applies (`at.arctanh`):
`arctanh y = (1/2) * log((1+y)/(1-y))`. -/
noncomputable def arctanh (y : ℝ) : ℝ := (1 / 2) * Real.log ((1 + y) / (1 - y))

/-- Modelled from the spec: `tanh_saturation` from `pymmmc/transformers.py`
(not under `src/`; only its tests are).  It raises `ValueError` for negative
`b` and for zero `c`, and otherwise returns the saturating curve
`b * tanh(x / (b * c))` — the curve whose inverse
`test_tanh_saturation_inverse` checks and whose range
`test_tanh_saturation_range` bounds by `b`. -/
noncomputable def tanh_saturation (x b c : ℝ) : Except String ℝ :=
  if b < 0 then .error "b must be non-negative."
  else if c = 0 then .error "c must be non-zero."
  else .ok (b * Real.tanh (x / (b * c)))

/-- The `parameterPrior` error is produced exactly when one of the two
difference sets is nonempty, and it carries those sets. -/
theorem mkTransformation_parameterPrior_iff (c : TransformationClass)
    (priors : List (String × PriorConfig)) :
    (∃ mp mf, mkTransformation c priors = .error (.parameterPrior mp mf)) ↔
      (missing_priors c ≠ [] ∨ missing_parameters c ≠ []) := by
  rw [mkTransformation]
  split_ifs with h1 h2 <;> simp_all

/-- Membership in `missing_priors`. -/
theorem mem_missing_priors (c : TransformationClass) (p : String) :
    p ∈ missing_priors c ↔
      p ∈ distributionParams c.funParams ∧ p ∉ priorKeys c := by
  simp [missing_priors, List.mem_filter]

/-- Membership in `missing_parameters`. -/
theorem mem_missing_parameters (c : TransformationClass) (p : String) :
    p ∈ missing_parameters c ↔
      p ∈ priorKeys c ∧ p ∉ distributionParams c.funParams := by
  simp [missing_parameters, List.mem_filter]

/-- Both difference sets are empty exactly when the parameter names and the
prior keys coincide as sets. -/
theorem missing_empty_iff (c : TransformationClass) :
    (missing_priors c = [] ∧ missing_parameters c = []) ↔
      (∀ p, p ∈ distributionParams c.funParams ↔ p ∈ priorKeys c) := by
  simp only [missing_priors, missing_parameters, List.filter_eq_nil_iff]
  constructor
  · rintro ⟨h1, h2⟩ p
    constructor
    · intro hp
      have := h1 p hp
      simpa using this
    · intro hp
      have := h2 p hp
      simpa using this
  · intro h
    constructor
    · intro p hp
      simp [(h p).mp hp]
    · intro p hp
      simp [(h p).mpr hp]

/-- The error payload determines the two difference sets. -/
theorem mkTransformation_parameterPrior_carries (c : TransformationClass)
    (priors : List (String × PriorConfig)) (mp mf : List String)
    (h : mkTransformation c priors = .error (.parameterPrior mp mf)) :
    mp = missing_priors c ∧ mf = missing_parameters c := by
  rw [mkTransformation] at h
  split_ifs at h <;> simp_all

/-- Claim C1: for every subclass defining `prefix`, `function` and
`default_priors`, instantiation raises `ParameterPriorException` at
construction time iff the set of the function's parameter names (excluding
`self` and the leading data parameter) differs from the set of keys of
`default_priors`; the exception carries exactly the missing default priors and
the missing function parameters that its message reports. -/
theorem C1_construction_parameter_prior_exception (c : TransformationClass)
    (priors : List (String × PriorConfig)) :
    ((∃ mp mf, mkTransformation c priors = .error (.parameterPrior mp mf)) ↔
      ¬ (∀ p, p ∈ distributionParams c.funParams ↔ p ∈ priorKeys c))
    ∧ (∀ mp mf, mkTransformation c priors = .error (.parameterPrior mp mf) →
        (∀ p, p ∈ mp ↔ p ∈ distributionParams c.funParams ∧ p ∉ priorKeys c)
        ∧ (∀ p, p ∈ mf ↔ p ∈ priorKeys c ∧ p ∉ distributionParams c.funParams)) := by
  refine ⟨?_, ?_⟩
  · rw [mkTransformation_parameterPrior_iff, ← missing_empty_iff]
    tauto
  · intro mp mf h
    obtain ⟨hp, hf⟩ := mkTransformation_parameterPrior_carries c priors mp mf h
    subst hp
    subst hf
    exact ⟨fun p => mem_missing_priors c p, fun p => mem_missing_parameters c p⟩

/-- Claim C1 witness: on the class of `test_new_transformation_missing_priors`
the construction raises, carrying `b` as the missing default prior, so the
parameter set and prior-key set indeed differ. -/
theorem C1_witness :
    ¬ (∀ p, p ∈ distributionParams missingPriorClass.funParams ↔
        p ∈ priorKeys missingPriorClass) :=
  (C1_construction_parameter_prior_exception missingPriorClass []).1.mp
    ⟨["b"], [], by rfl⟩

/-- Looking up a key of `l` in the list that maps every key through `f` yields
`f` of that key, regardless of duplicates (all duplicates agree). -/
theorem lookup_map_self {β : Type} (l : List (String × β)) (f : String → String)
    (p : String) (hp : p ∈ l.map Prod.fst) :
    List.lookup p (l.map (fun q => (q.1, f q.1))) = some (f p) := by
  induction l with
  | nil => simp at hp
  | cons a l ih =>
    obtain ⟨k, v⟩ := a
    simp only [List.map_cons, List.lookup_cons]
    by_cases h : p = k
    · subst h
      simp
    · have hb : (p == k) = false := by simp [h]
      rw [hb]
      apply ih
      simp only [List.map_cons, List.mem_cons] at hp
      exact hp.resolve_left h

/-- Looking up the first component of a member of a key-distinct list finds
its second component. -/
theorem lookup_eq_of_mem_of_nodup {β : Type} (l : List (String × β))
    (q : String × β) (hq : q ∈ l) (hnd : (l.map Prod.fst).Nodup) :
    List.lookup q.1 l = some q.2 := by
  induction l with
  | nil => simp at hq
  | cons a l ih =>
    obtain ⟨k, v⟩ := a
    rcases List.mem_cons.mp hq with h | h
    · subst h
      simp
    · have hne : q.1 ≠ k := by
        intro hcontra
        have hmem : k ∈ l.map Prod.fst := hcontra ▸ List.mem_map_of_mem Prod.fst h
        simp only [List.map_cons, List.nodup_cons] at hnd
        exact hnd.1 hmem
      have hb : (q.1 == k) = false := by simp [hne]
      rw [List.lookup_cons, hb]
      refine ih h ?_
      simp only [List.map_cons, List.nodup_cons] at hnd
      exact hnd.2

/-- A key that is not among the keys of `l` looks up to `none`. -/
theorem lookup_eq_none_of_not_mem {β : Type} (l : List (String × β)) (p : String)
    (h : p ∉ l.map Prod.fst) : List.lookup p l = none := by
  rw [List.lookup_eq_none_iff]
  intro q hq
  simp only [bne_iff_ne, ne_eq]
  intro hcontra
  exact h (hcontra ▸ List.mem_map_of_mem Prod.fst hq)

/-- Every key of the update dictionary built by `update_priors` is a key of
the base dictionary. -/
theorem update_dict_keys_subset {β γ : Type} (l : List (String × β))
    (f : String → String) (priors : List (String × γ)) (q : String × γ)
    (hq : q ∈ (l.map (fun r => (r.1, f r.1))).filterMap
        (fun pv => (List.lookup pv.2 priors).map (fun cfg => (pv.1, cfg)))) :
    q.1 ∈ l.map Prod.fst := by
  simp only [List.mem_filterMap, List.mem_map] at hq
  obtain ⟨pv, ⟨r, hr, rfl⟩, hsome⟩ := hq
  cases hl : List.lookup (f r.1) priors with
  | none =>
    rw [hl] at hsome
    simp at hsome
  | some c =>
    rw [hl] at hsome
    simp only [Option.map_some', Option.some.injEq] at hsome
    rw [← hsome]
    exact List.mem_map_of_mem Prod.fst hr

/-- The update dictionary built by `update_priors` looks up, at a key of the
base dictionary, exactly what the argument dictionary holds at the
corresponding mapped name. -/
theorem lookup_update_dict {β γ : Type} (l : List (String × β))
    (f : String → String) (priors : List (String × γ)) (p : String)
    (hp : p ∈ l.map Prod.fst) :
    List.lookup p ((l.map (fun q => (q.1, f q.1))).filterMap
        (fun pv => (List.lookup pv.2 priors).map (fun cfg => (pv.1, cfg))))
      = List.lookup (f p) priors := by
  induction l with
  | nil => simp at hp
  | cons a l ih =>
    obtain ⟨k, v⟩ := a
    simp only [List.map_cons, List.filterMap_cons]
    by_cases h : p = k
    · subst h
      cases hpri : List.lookup (f p) priors with
      | some c =>
        simp only [Option.map_some']
        simp
      | none =>
        simp only [Option.map_none']
        by_cases htail : p ∈ l.map Prod.fst
        · rw [ih htail]
          exact hpri
        · apply lookup_eq_none_of_not_mem
          intro hmem
          obtain ⟨q, hq, hq1⟩ := List.mem_map.mp hmem
          exact htail (hq1 ▸ update_dict_keys_subset l f priors q hq)
    · have hb : (p == k) = false := by simp [h]
      have hp' : p ∈ l.map Prod.fst := by
        simp only [List.map_cons, List.mem_cons] at hp
        exact hp.resolve_left h
      cases hpri : List.lookup (f k) priors with
      | some c =>
        simp only [Option.map_some']
        rw [List.lookup_cons, hb]
        exact ih hp'
      | none =>
        simp only [Option.map_none']
        exact ih hp'

/-- When every key of `upd` is a key of `base`, the Python merge
`\x7b**base, **upd\x7d` only overrides values of `base`. -/
theorem dictMerge_keys_subset (base upd : List (String × PriorConfig))
    (h : ∀ q ∈ upd, q.1 ∈ base.map Prod.fst) :
    dictMerge base upd = base.map (fun p => (p.1, (List.lookup p.1 upd).getD p.2)) := by
  unfold dictMerge
  have hnil : upd.filter (fun q => (List.lookup q.1 base).isNone) = [] := by
    rw [List.filter_eq_nil_iff]
    intro q hq
    have hk := h q hq
    simp only [Bool.not_eq_true, Option.isNone_eq_false_iff, List.lookup_isSome_iff]
    obtain ⟨b, hb1, hb2⟩ := List.mem_map.mp hk
    exact ⟨b, hb1, by simp [hb2]⟩
  rw [hnil, List.append_nil]

/-- Claim C5: for every instance with prefix `P`, `variable_mapping` sends each
abstract parameter `p` to the model-scoped name `P_p`, and `model_config`
equals `function_priors` with every key re-keyed through `variable_mapping`,
the prior values unchanged. -/
theorem C5_variable_mapping_model_config (t : Transformation) (p : String)
    (hp : p ∈ t.function_priors.map Prod.fst) :
    List.lookup p (variable_mapping t) = some (t.pfx ++ "_" ++ p)
    ∧ model_config t =
        t.function_priors.map (fun q => (t.pfx ++ "_" ++ q.1, q.2)) := by
  constructor
  · exact lookup_map_self t.function_priors (fun s => t.pfx ++ "_" ++ s) p hp
  · unfold model_config
    apply List.map_congr_left
    intro q hq
    have hk : q.1 ∈ t.function_priors.map Prod.fst := List.mem_map_of_mem Prod.fst hq
    rw [show variable_mapping t =
        t.function_priors.map (fun r => (r.1, t.pfx ++ "_" ++ r.1)) from rfl]
    rw [lookup_map_self t.function_priors (fun s => t.pfx ++ "_" ++ s) q.1 hk]
    rfl

/-- Claim C5 witness: on the fixture instance, `a` maps to `new_a` and
`model_config` re-keys both priors (as `test_new_transformation_variable_mapping`
and `test_model_config` check). -/
theorem C5_witness :
    List.lookup "a" (variable_mapping new_transformation) = some "new_a"
    ∧ model_config new_transformation =
        [("new_a", halfNormal 1), ("new_b", halfNormal 1)] := by
  have h := C5_variable_mapping_model_config new_transformation "a" (by decide)
  refine ⟨h.1, h.2.trans ?_⟩
  rfl

/-- The random variables `apply` registers are exactly `function_priors`
re-keyed through `variable_mapping` (for key-distinct priors). -/
theorem apply_registrations (t : Transformation)
    (hnd : (t.function_priors.map Prod.fst).Nodup) :
    (variable_mapping t).map
        (fun pv => (pv.2, (List.lookup pv.1 t.function_priors).getD emptyPrior))
      = t.function_priors.map (fun q => (t.pfx ++ "_" ++ q.1, q.2)) := by
  unfold variable_mapping
  rw [List.map_map]
  apply List.map_congr_left
  intro q hq
  simp only [Function.comp]
  rw [lookup_eq_of_mem_of_nodup t.function_priors q hq hnd]
  rfl

/-- Claim C2: calling `apply` inside an enclosing model context registers one
random variable per entry of `variable_mapping`, each under its model-scoped
name with the prior of its abstract parameter, and returns the function
applied to the data and those variables; in particular on the fixture function
`a * b * x`, with `new_a` and `new_b` fixed to 2 and 3, the result evaluates
to `6 * x`. -/
theorem C2_apply_inside_model (t : Transformation) (m : PModel)
    (rest : List PModel) (x : TExpr)
    (hnd : (t.function_priors.map Prod.fst).Nodup) :
    (apply_stack t (m :: rest) x =
      ({ rvs := m.rvs ++ t.function_priors.map (fun q => (t.pfx ++ "_" ++ q.1, q.2)) } :: rest,
        .ok (t.function x
          ((variable_mapping t).map (fun pv => (pv.1, TExpr.rv pv.2))))))
    ∧ (∀ x0 : Int,
        ∃ m' e, apply_stack new_transformation [{ rvs := [] }] .dataRef = ([m'], .ok e)
          ∧ m'.rvs = [("new_a", halfNormal 1), ("new_b", halfNormal 1)]
          ∧ evalExpr (fun s => if s = "new_a" then 2 else if s = "new_b" then 3 else 0)
              x0 e = 6 * x0) := by
  constructor
  · simp only [apply_stack]
    rw [apply_registrations t hnd]
  · intro x0
    refine ⟨{ rvs := [("new_a", halfNormal 1), ("new_b", halfNormal 1)] },
      .mul (.rv "new_a") (.mul (.rv "new_b") .dataRef), rfl, rfl, ?_⟩
    show (2 : Int) * ((3 : Int) * x0) = 6 * x0
    ring

/-- Claim C2 witness: applying the fixture instance in an empty model
registers `new_a` and `new_b` with their `HalfNormal(1)` priors and returns
the symbolic product. -/
theorem C2_witness :
    apply_stack new_transformation [{ rvs := [] }] TExpr.dataRef =
      ([{ rvs := [("new_a", halfNormal 1), ("new_b", halfNormal 1)] }],
        .ok (.mul (.rv "new_a") (.mul (.rv "new_b") .dataRef))) := by
  have h := (C2_apply_inside_model new_transformation { rvs := [] } []
    TExpr.dataRef (by decide)).1
  exact h.trans (by rfl)

/-- Claim C3: calling `apply` with no model on the context stack raises a
`TypeError` whose message mentions the context stack, and registers no random
variable anywhere: the stack is left untouched. -/
theorem C3_apply_outside_model (t : Transformation) (x : TExpr) :
    (apply_stack t [] x).1 = []
    ∧ ∃ e, (apply_stack t [] x).2 = .error e
        ∧ strContains e.msg "on context stack" := by
  refine ⟨rfl, ⟨_, rfl, ?_⟩⟩
  exact rfl

/-- Claim C4: `update_priors` takes a dictionary keyed by model-scoped names:
each parameter whose model-scoped name occurs gets that prior, parameters not
mentioned keep theirs; the no-priors-updated warning fires exactly when no key
matches a model-scoped name, and then `function_priors` is unchanged. -/
theorem C4_update_priors (t : Transformation)
    (priors : List (String × PriorConfig)) :
    ((update_priors t priors).1.function_priors =
      t.function_priors.map
        (fun q => (q.1, (List.lookup (t.pfx ++ "_" ++ q.1) priors).getD q.2)))
    ∧ ((update_priors t priors).2 = true ↔
        ∀ p ∈ t.function_priors.map Prod.fst,
          List.lookup (t.pfx ++ "_" ++ p) priors = none)
    ∧ ((update_priors t priors).2 = true →
        (update_priors t priors).1.function_priors = t.function_priors) := by
  have hvm : variable_mapping t =
      t.function_priors.map (fun r => (r.1, t.pfx ++ "_" ++ r.1)) := rfl
  have hsub : ∀ q ∈ (t.function_priors.map
        (fun r => (r.1, t.pfx ++ "_" ++ r.1))).filterMap
        (fun pv => (List.lookup pv.2 priors).map (fun cfg => (pv.1, cfg))),
      q.1 ∈ t.function_priors.map Prod.fst := fun q hq =>
    update_dict_keys_subset t.function_priors (fun s => t.pfx ++ "_" ++ s) priors q hq
  have hlk : ∀ p ∈ t.function_priors.map Prod.fst,
      List.lookup p ((t.function_priors.map
          (fun r => (r.1, t.pfx ++ "_" ++ r.1))).filterMap
          (fun pv => (List.lookup pv.2 priors).map (fun cfg => (pv.1, cfg))))
        = List.lookup (t.pfx ++ "_" ++ p) priors := fun p hp =>
    lookup_update_dict t.function_priors (fun s => t.pfx ++ "_" ++ s) priors p hp
  have hmain : (update_priors t priors).1.function_priors =
      t.function_priors.map
        (fun q => (q.1, (List.lookup (t.pfx ++ "_" ++ q.1) priors).getD q.2)) := by
    show dictMerge t.function_priors _ = _
    rw [hvm, dictMerge_keys_subset _ _ hsub]
    apply List.map_congr_left
    intro q hq
    rw [hlk q.1 (List.mem_map_of_mem Prod.fst hq)]
  have hwarn : (update_priors t priors).2 = true ↔
      ∀ p ∈ t.function_priors.map Prod.fst,
        List.lookup (t.pfx ++ "_" ++ p) priors = none := by
    show (List.filterMap _ (variable_mapping t)).isEmpty = true ↔ _
    rw [List.isEmpty_iff, List.filterMap_eq_nil_iff]
    unfold variable_mapping
    constructor
    · intro h p hp
      obtain ⟨q, hq, hq1⟩ := List.mem_map.mp hp
      have := h (q.1, t.pfx ++ "_" ++ q.1) (List.mem_map_of_mem _ hq)
      simp only [Option.map_eq_none'] at this
      exact hq1 ▸ this
    · intro h pv hpv
      obtain ⟨q, hq, rfl⟩ := List.mem_map.mp hpv
      simp only [Option.map_eq_none']
      exact h q.1 (List.mem_map_of_mem Prod.fst hq)
  refine ⟨hmain, hwarn, ?_⟩
  intro hw
  rw [hmain]
  have hall := hwarn.mp hw
  have hpt : ∀ q ∈ t.function_priors,
      (fun q : String × PriorConfig =>
        (q.1, (List.lookup (t.pfx ++ "_" ++ q.1) priors).getD q.2)) q = q := by
    intro q hq
    show (q.1, (List.lookup (t.pfx ++ "_" ++ q.1) priors).getD q.2) = q
    rw [hall q.1 (List.mem_map_of_mem Prod.fst hq)]
    rfl
  rw [List.map_congr_left hpt, List.map_id']

/-- Claim C4 witness: on the fixture, updating with `new_a ↦ HalfNormal(2)`
replaces only `a`, leaves `b`, and fires no warning; updating with an unknown
name `new_c` warns and leaves `function_priors` unchanged. -/
theorem C4_witness :
    (update_priors new_transformation [("new_a", halfNormal 2)]).1.function_priors =
      [("a", halfNormal 2), ("b", halfNormal 1)]
    ∧ (update_priors new_transformation [("new_c", halfNormal 1)]).2 = true
    ∧ (update_priors new_transformation
        [("new_c", halfNormal 1)]).1.function_priors =
        new_transformation.function_priors := by
  refine ⟨?_, by rfl, ?_⟩
  · have h := (C4_update_priors new_transformation [("new_a", halfNormal 2)]).1
    exact h.trans (by rfl)
  · exact (C4_update_priors new_transformation [("new_c", halfNormal 1)]).2.2 (by rfl)

/-- Appending fresh cells leaves existing cells unchanged. -/
theorem heapRead_append (h : Heap) (tl : List PriorConfig) (a : Nat)
    (ha : a < h.length) : heapRead (h ++ tl) a = heapRead h a := by
  unfold heapRead
  rw [List.getD_eq_getElem?_getD, List.getD_eq_getElem?_getD,
    List.getElem?_append_left ha]

/-- Construction leaves existing cells unchanged. -/
theorem heapRead_construct (ds : List (String × Nat)) (h : Heap) (a : Nat)
    (ha : a < h.length) :
    heapRead (construct_priors h ds).1 a = heapRead h a := by
  induction ds generalizing h with
  | nil => rfl
  | cons d rest ih =>
    simp only [construct_priors]
    rw [ih _ (by simp [List.length_append]; omega)]
    exact heapRead_append h _ a ha

/-- Construction grows the heap by one cell per prior. -/
theorem length_construct (ds : List (String × Nat)) (h : Heap) :
    (construct_priors h ds).1.length = h.length + ds.length := by
  induction ds generalizing h with
  | nil => rfl
  | cons d rest ih =>
    simp only [construct_priors]
    rw [ih, List.length_append]
    simp only [List.length_cons, List.length_nil]
    omega

/-- Every address the construction hands to the instance is fresh: at or above
the old heap length. -/
theorem construct_addrs_fresh (ds : List (String × Nat)) (h : Heap) :
    ∀ d ∈ (construct_priors h ds).2, h.length ≤ d.2 := by
  induction ds generalizing h with
  | nil => intro d hd; simp [construct_priors] at hd
  | cons e rest ih =>
    intro d hd
    simp only [construct_priors, List.mem_cons] at hd
    rcases hd with hhead | htail
    · rw [hhead]
    · have := ih (h ++ [heapRead h e.2]) d htail
      have hlen1 : List.length (h ++ [heapRead h e.2]) = List.length h + 1 := by
        simp
      omega

/-- Reading the constructed copies gives back exactly the values the source
dictionaries held. -/
theorem construct_reads (ds : List (String × Nat)) (h : Heap)
    (hb : ∀ d ∈ ds, d.2 < h.length) :
    (construct_priors h ds).2.map
        (fun d => (d.1, heapRead (construct_priors h ds).1 d.2))
      = ds.map (fun d => (d.1, heapRead h d.2)) := by
  induction ds generalizing h with
  | nil => rfl
  | cons d rest ih =>
    have hd := hb d (List.mem_cons_self d rest)
    have hlen : h.length < (h ++ [heapRead h d.2]).length := by
      simp only [List.length_append, List.length_cons, List.length_nil]
      omega
    simp only [construct_priors, List.map_cons]
    congr 1
    · rw [heapRead_construct rest _ _ hlen]
      unfold heapRead
      rw [List.getD_eq_getElem?_getD, List.getElem?_concat_length]
      rfl
    · rw [ih _ (fun e he => by
        simp only [List.length_append, List.length_cons, List.length_nil]
        exact Nat.lt_of_lt_of_le (hb e (List.mem_cons_of_mem d he))
          (Nat.le_add_right _ _))]
      apply List.map_congr_left
      intro e he
      rw [heapRead_append h _ e.2 (hb e (List.mem_cons_of_mem d he))]

/-- The in-place mutation does not change the heap size. -/
theorem length_add_dims (dim : String) (inst : List (String × Nat)) (h : Heap) :
    (add_dims_all dim h inst).length = h.length := by
  induction inst generalizing h with
  | nil => rfl
  | cons d rest ih =>
    simp only [add_dims_all]
    rw [ih, List.length_set]

/-- The in-place mutation only touches the addresses it is given. -/
theorem heapRead_add_dims (dim : String) (inst : List (String × Nat)) (h : Heap)
    (a : Nat) (ha : ∀ d ∈ inst, a ≠ d.2) :
    heapRead (add_dims_all dim h inst) a = heapRead h a := by
  induction inst generalizing h with
  | nil => rfl
  | cons d rest ih =>
    simp only [add_dims_all]
    rw [ih _ (fun e he => ha e (List.mem_cons_of_mem d he))]
    unfold heapRead
    rw [List.getD_eq_getElem?_getD, List.getD_eq_getElem?_getD,
      List.getElem?_set_ne (fun hc => ha d (List.mem_cons_self d rest) hc.symm)]
    rw [List.getD_eq_getElem?_getD]

/-- Claim C10: construction copies the class-level `default_priors` rather
than aliasing them — after mutating one instance's `function_priors`
dictionaries in place (adding a `dims` entry to each), a subsequently
constructed instance still reads `function_priors` equal to the original
`default_priors`. -/
theorem C10_instance_priors_deepcopy (h : Heap) (defaults : List (String × Nat))
    (dim : String) (hb : ∀ d ∈ defaults, d.2 < h.length) :
    ((construct_priors
        (add_dims_all dim (construct_priors h defaults).1
          (construct_priors h defaults).2) defaults).2.map
      (fun d => (d.1,
        heapRead (construct_priors
          (add_dims_all dim (construct_priors h defaults).1
            (construct_priors h defaults).2) defaults).1 d.2)))
      = defaults.map (fun d => (d.1, heapRead h d.2)) := by
  have hlen2 : (add_dims_all dim (construct_priors h defaults).1
      (construct_priors h defaults).2).length = h.length + defaults.length := by
    rw [length_add_dims, length_construct]
  have hb2 : ∀ d ∈ defaults, d.2 < (add_dims_all dim (construct_priors h defaults).1
      (construct_priors h defaults).2).length := by
    intro d hd
    rw [hlen2]
    exact Nat.lt_of_lt_of_le (hb d hd) (Nat.le_add_right _ _)
  rw [construct_reads defaults _ hb2]
  apply List.map_congr_left
  intro d hd
  have hread2 : heapRead (add_dims_all dim (construct_priors h defaults).1
      (construct_priors h defaults).2) d.2 = heapRead (construct_priors h defaults).1 d.2 := by
    apply heapRead_add_dims
    intro e he
    have hfresh := construct_addrs_fresh defaults h e he
    have hlt := hb d hd
    omega
  rw [hread2, heapRead_construct defaults h d.2 (hb d hd)]

/-- Claim C10 witness: with the fixture's two `HalfNormal(1)` dictionaries on
the heap, mutating the first instance's copies in place leaves a second
instance's priors equal to the original defaults. -/
theorem C10_witness :
    ((construct_priors
        (add_dims_all "channel"
          (construct_priors [halfNormal 1, halfNormal 1] [("a", 0), ("b", 1)]).1
          (construct_priors [halfNormal 1, halfNormal 1] [("a", 0), ("b", 1)]).2)
        [("a", 0), ("b", 1)]).2.map
      (fun d => (d.1,
        heapRead (construct_priors
          (add_dims_all "channel"
            (construct_priors [halfNormal 1, halfNormal 1] [("a", 0), ("b", 1)]).1
            (construct_priors [halfNormal 1, halfNormal 1] [("a", 0), ("b", 1)]).2)
          [("a", 0), ("b", 1)]).1 d.2)))
      = [("a", halfNormal 1), ("b", halfNormal 1)] := by
  have h := C10_instance_priors_deepcopy [halfNormal 1, halfNormal 1]
    [("a", 0), ("b", 1)] "channel" (by decide)
  exact h.trans (by rfl)

/-- The components of `handle_prior_config` coincide with the three spec-side
descriptions. -/
theorem handle_prior_config_eq (nd : List String) (n : String) (v : MCValue) :
    handle_prior_config nd n v =
      (spec_parsed_value nd (n, v), spec_parse_failure nd (n, v),
        spec_deprecation_warning nd (n, v)) := by
  unfold handle_prior_config spec_parsed_value spec_parse_failure
    spec_deprecation_warning
  split_ifs with h
  · rfl
  · cases v with
    | priorV p => rfl
    | rawV raw => cases raw <;> rfl

/-- The collected parse errors are the spec-side failures, entrywise. -/
theorem parse_errors_eq (mc : List (String × MCValue)) (nd : List String) :
    mc.filterMap (fun nv => (handle_prior_config nd nv.1 nv.2).2.1)
      = mc.filterMap (spec_parse_failure nd) := by
  have hf : (fun nv : String × MCValue =>
      (handle_prior_config nd nv.1 nv.2).2.1) = spec_parse_failure nd := by
    funext nv
    rw [handle_prior_config_eq]
  rw [hf]

/-- The collected warnings are the spec-side deprecation warnings, entrywise. -/
theorem parse_warnings_eq (mc : List (String × MCValue)) (nd : List String) :
    mc.filterMap (fun nv => (handle_prior_config nd nv.1 nv.2).2.2)
      = mc.filterMap (spec_deprecation_warning nd) := by
  have hf : (fun nv : String × MCValue =>
      (handle_prior_config nd nv.1 nv.2).2.2) = spec_deprecation_warning nd := by
    funext nv
    rw [handle_prior_config_eq]
  rw [hf]

/-- The warnings component of `parse_model_config` is the entrywise
deprecation-warning list, raise or no raise. -/
theorem parse_model_config_warnings (mc : List (String × MCValue))
    (nd : List String) :
    (parse_model_config mc nd).2 = mc.filterMap (spec_deprecation_warning nd) := by
  rw [← parse_warnings_eq]
  simp only [parse_model_config]
  split_ifs <;> rfl

/-- Claim C6: when `parse_model_config` returns, the returned dictionary has
exactly the keys of the input, values excluded via `non_distributions` and
values already `Prior` instances are unchanged, every other value is replaced
by the typed prior `Prior.from_json` yields, and one deprecation warning is
emitted per conversion. -/
theorem C6_parse_model_config_success (mc : List (String × MCValue))
    (nd : List String) (res : List (String × Option MCValue))
    (h : (parse_model_config mc nd).1 = .ok res) :
    res.map Prod.fst = mc.map Prod.fst
    ∧ res = mc.map (fun nv => (nv.1, spec_parsed_value nd nv))
    ∧ (parse_model_config mc nd).2 = mc.filterMap (spec_deprecation_warning nd) := by
  have h' := h
  simp only [parse_model_config] at h'
  split_ifs at h' with hemp
  · simp only [Except.ok.injEq] at h'
    have hres : res = mc.map
        (fun nv => (nv.1, (handle_prior_config nd nv.1 nv.2).1)) := h'.symm
    refine ⟨?_, ?_, parse_model_config_warnings mc nd⟩
    · rw [hres, List.map_map]
      apply List.map_congr_left
      intro nv hnv
      rfl
    · rw [hres]
      apply List.map_congr_left
      intro nv hnv
      rw [handle_prior_config_eq]

/-- Claim C7: `parse_model_config` raises `ModelConfigError` exactly when some
value that is neither excluded nor already a `Prior` fails `Prior.from_json`;
the exception collects every failure (not only the first), and its message
reports the number of failures and, for each, the parameter name with its
underlying error. -/
theorem C7_parse_model_config_error (mc : List (String × MCValue))
    (nd : List String) :
    ((∃ e, (parse_model_config mc nd).1 = .error e) ↔
      ∃ nv ∈ mc, spec_parse_failure nd nv ≠ none)
    ∧ (∀ e, (parse_model_config mc nd).1 = .error e →
        e.errors = mc.filterMap (spec_parse_failure nd)
        ∧ renderModelConfigError e
          = toString (mc.filterMap (spec_parse_failure nd)).length
            ++ " errors occurred while parsing model configuration. Errors: "
            ++ String.intercalate ", " (mc.filterMap (spec_parse_failure nd))) := by
  have hpe := parse_errors_eq mc nd
  by_cases hemp : (mc.filterMap
      (fun nv => (handle_prior_config nd nv.1 nv.2).2.1)).isEmpty = true
  · have hok : (parse_model_config mc nd).1 = .ok (mc.map
        (fun nv => (nv.1, (handle_prior_config nd nv.1 nv.2).1))) := by
      simp only [parse_model_config]
      rw [if_pos hemp]
    have hall : ∀ nv ∈ mc, spec_parse_failure nd nv = none := by
      rw [List.isEmpty_iff, hpe, List.filterMap_eq_nil_iff] at hemp
      exact hemp
    constructor
    · constructor
      · rintro ⟨e, he⟩
        rw [hok] at he
        exact absurd he (by simp)
      · rintro ⟨nv, hnv, hne⟩
        exact absurd (hall nv hnv) hne
    · intro e he
      rw [hok] at he
      exact absurd he (by simp)
  · have herr : (parse_model_config mc nd).1
        = .error (ModelConfigError.mk (mc.filterMap
          (fun nv => (handle_prior_config nd nv.1 nv.2).2.1))) := by
      simp only [parse_model_config]
      rw [if_neg hemp]
    have hex : ∃ nv ∈ mc, spec_parse_failure nd nv ≠ none := by
      rw [List.isEmpty_iff, hpe, List.filterMap_eq_nil_iff] at hemp
      push_neg at hemp
      exact hemp
    refine ⟨⟨fun _ => hex, fun _ => ⟨_, herr⟩⟩, ?_⟩
    intro e he
    rw [herr] at he
    injection he with hAe
    rw [← hAe]
    refine ⟨hpe, ?_⟩
    simp only [renderModelConfigError]
    rw [hpe]

/-- Claim C6 witness: on the docstring example with `tvp_intercept` excluded,
parsing succeeds, keys are preserved, `alpha` is converted, `beta` and
`tvp_intercept` are untouched. -/
theorem C6_witness :
    ([("alpha", some (MCValue.priorV { dist := "Normal", kwargs := [("mu", 0), ("sigma", 1)] })),
      ("beta", some (MCValue.priorV { dist := "HalfNormal", kwargs := [] })),
      ("tvp_intercept", some (MCValue.rawV (.other "Some other configuration")))]
        : List (String × Option MCValue)).map Prod.fst
      = exampleConfig.map Prod.fst
    ∧ ([("alpha", some (MCValue.priorV { dist := "Normal", kwargs := [("mu", 0), ("sigma", 1)] })),
        ("beta", some (MCValue.priorV { dist := "HalfNormal", kwargs := [] })),
        ("tvp_intercept", some (MCValue.rawV (.other "Some other configuration")))]
          : List (String × Option MCValue))
        = exampleConfig.map (fun nv => (nv.1, spec_parsed_value ["tvp_intercept"] nv))
    ∧ (parse_model_config exampleConfig ["tvp_intercept"]).2
        = exampleConfig.filterMap (spec_deprecation_warning ["tvp_intercept"]) :=
  C6_parse_model_config_success exampleConfig ["tvp_intercept"] _ (by rfl)

/-- Claim C7 witness: both failures are collected into the raised error and
its message reports their number. -/
theorem C7_witness :
    (ModelConfigError.mk
        ["Parameter alpha: Unable to parse prior: Non distribution",
         "Parameter gamma: Unable to parse prior: Completely wrong"]).errors
      = badConfig.filterMap (spec_parse_failure [])
    ∧ renderModelConfigError (ModelConfigError.mk
        ["Parameter alpha: Unable to parse prior: Non distribution",
         "Parameter gamma: Unable to parse prior: Completely wrong"])
      = toString (badConfig.filterMap (spec_parse_failure [])).length
        ++ " errors occurred while parsing model configuration. Errors: "
        ++ String.intercalate ", " (badConfig.filterMap (spec_parse_failure [])) :=
  (C7_parse_model_config_error badConfig []).2 _ (by rfl)

/-- Length of a flat-map producing two elements per index. -/
theorem flatMap_pair_length {α : Type} (n : Nat) (f g : Nat → α) :
    ((List.range n).flatMap (fun i => [f i, g i])).length = 2 * n := by
  induction n with
  | zero => rfl
  | succ m ih =>
    rw [List.range_succ, List.flatMap_append, List.length_append, ih,
      List.flatMap_singleton]
    simp only [List.length_cons, List.length_nil]
    omega

/-- Indexing a flat-map producing two elements per index: position `2k` holds
the first element of block `k` and position `2k+1` the second. -/
theorem flatMap_pair_getElem {α : Type} (n : Nat) (f g : Nat → α) (k : Nat)
    (hk : k < n) :
    ((List.range n).flatMap (fun i => [f i, g i]))[2 * k]? = some (f k)
    ∧ ((List.range n).flatMap (fun i => [f i, g i]))[2 * k + 1]? = some (g k) := by
  induction n with
  | zero => omega
  | succ m ih =>
    rw [List.range_succ, List.flatMap_append, List.flatMap_singleton]
    by_cases h : k < m
    · have hlen := flatMap_pair_length m f g
      constructor
      · rw [List.getElem?_append_left (by omega)]
        exact (ih h).1
      · rw [List.getElem?_append_left (by omega)]
        exact (ih h).2
    · have hk' : k = m := by omega
      subst hk'
      have hlen := flatMap_pair_length k f g
      constructor
      · rw [List.getElem?_append_right (by omega)]
        rw [hlen]
        have : 2 * k - 2 * k = 0 := by omega
        rw [this]
        rfl
      · rw [List.getElem?_append_right (by omega)]
        rw [hlen]
        have : 2 * k + 1 - 2 * k = 1 := by omega
        rw [this]
        rfl

/-- Claim C8: `generate_fourier_modes` raises `ValueError` iff `n_order < 1`;
otherwise it returns the columns `sin_order_k`, `cos_order_k` for `k` from 1
to `n_order`, interleaved in that order, where `sin_order_k` holds
`sin(2*pi*periods*k)` and `cos_order_k` holds `cos(2*pi*periods*k)`
elementwise. -/
theorem C8_generate_fourier_modes (periods : List ℝ) (n_order : Int) :
    ((∃ e, generate_fourier_modes periods n_order = .error e) ↔ n_order < 1)
    ∧ (∀ cols, generate_fourier_modes periods n_order = .ok cols →
        cols.length = 2 * n_order.toNat
        ∧ ∀ k : Nat, 1 ≤ k → k ≤ n_order.toNat →
            cols[2 * (k - 1)]? = some ("sin_order_" ++ toString k,
              periods.map (fun t => Real.sin (2 * Real.pi * t * k)))
            ∧ cols[2 * (k - 1) + 1]? = some ("cos_order_" ++ toString k,
              periods.map (fun t => Real.cos (2 * Real.pi * t * k)))) := by
  constructor
  · unfold generate_fourier_modes
    split_ifs with h
    · exact ⟨fun _ => h, fun _ => ⟨_, rfl⟩⟩
    · constructor
      · rintro ⟨e, he⟩
        exact absurd he (by simp)
      · intro hlt
        exact absurd hlt h
  · intro cols hc
    unfold generate_fourier_modes at hc
    split_ifs at hc with h
    case _ =>
      simp only [Except.ok.injEq] at hc
      have hcols : cols = ((List.range n_order.toNat).flatMap (fun i =>
          [("sin_order_" ++ toString (i + 1),
            periods.map (fun t => Real.sin (2 * Real.pi * t * ((i + 1 : Nat) : ℝ)))),
           ("cos_order_" ++ toString (i + 1),
            periods.map (fun t => Real.cos (2 * Real.pi * t * ((i + 1 : Nat) : ℝ))))])) := by
        rw [← hc, List.flatMap_map]
      constructor
      · rw [hcols, flatMap_pair_length]
      · intro k hk1 hk2
        have hkm : k - 1 < n_order.toNat := by omega
        have hpair := flatMap_pair_getElem n_order.toNat
          (fun i => ("sin_order_" ++ toString (i + 1),
            periods.map (fun t => Real.sin (2 * Real.pi * t * ((i + 1 : Nat) : ℝ)))))
          (fun i => ("cos_order_" ++ toString (i + 1),
            periods.map (fun t => Real.cos (2 * Real.pi * t * ((i + 1 : Nat) : ℝ)))))
          (k - 1) hkm
        simp only [] at hpair
        have hk1' : k - 1 + 1 = k := by omega
        rw [hk1'] at hpair
        rw [hcols]
        exact hpair

/-- Claim C8 witness: at order 1 on a single period 0, the result has the two
columns `sin_order_1`, `cos_order_1`. -/
theorem C8_witness :
    ∃ cols, generate_fourier_modes [0] 1 = .ok cols ∧ cols.length = 2 := by
  have h : ∃ cols, generate_fourier_modes [0] 1 = .ok cols := by
    unfold generate_fourier_modes
    rw [if_neg (by norm_num)]
    exact ⟨_, rfl⟩
  obtain ⟨cols, hc⟩ := h
  exact ⟨cols, hc, ((C8_generate_fourier_modes [0] 1).2 cols hc).1⟩

/-- The map `arctanh` inverts `tanh` on all of `ℝ`. -/
theorem arctanh_tanh (x : ℝ) : arctanh (Real.tanh x) = x := by
  unfold arctanh
  rw [Real.tanh_eq_sinh_div_cosh, Real.sinh_eq, Real.cosh_eq]
  have he : (0 : ℝ) < Real.exp x := Real.exp_pos x
  have hen : (0 : ℝ) < Real.exp (-x) := Real.exp_pos (-x)
  have hsum : (0 : ℝ) < Real.exp x + Real.exp (-x) := by linarith
  have h1 : 1 + (Real.exp x - Real.exp (-x)) / 2 / ((Real.exp x + Real.exp (-x)) / 2)
      = 2 * Real.exp x / (Real.exp x + Real.exp (-x)) := by
    field_simp
    ring
  have h2 : 1 - (Real.exp x - Real.exp (-x)) / 2 / ((Real.exp x + Real.exp (-x)) / 2)
      = 2 * Real.exp (-x) / (Real.exp x + Real.exp (-x)) := by
    field_simp
    ring
  rw [h1, h2]
  have h3 : 2 * Real.exp x / (Real.exp x + Real.exp (-x))
      / (2 * Real.exp (-x) / (Real.exp x + Real.exp (-x)))
      = Real.exp x / Real.exp (-x) := by
    field_simp
    ring
  rw [h3, ← Real.exp_sub, Real.log_exp]
  ring

/-- The hyperbolic tangent lies in `[-1, 1]`. -/
theorem abs_tanh_le_one (x : ℝ) : |Real.tanh x| ≤ 1 := by
  rw [Real.tanh_eq_sinh_div_cosh, abs_div, abs_of_pos (Real.cosh_pos x),
    div_le_one (Real.cosh_pos x)]
  rw [abs_le]
  constructor
  · have := Real.sinh_lt_cosh (-x)
    rw [Real.sinh_neg, Real.cosh_neg] at this
    linarith
  · exact (Real.sinh_lt_cosh x).le

/-- Claim C9: for `b > 0` and `c ≠ 0`, `tanh_saturation` succeeds, applying
the inverse map `y ↦ (b*c) * arctanh(y / b)` to its output recovers the input
exactly, and the output always lies within `[-b, b]`. -/
theorem C9_tanh_saturation_inverse_range (x b c : ℝ) (hb : 0 < b) (hc : c ≠ 0) :
    ∃ y, tanh_saturation x b c = .ok y
      ∧ (b * c) * arctanh (y / b) = x
      ∧ |y| ≤ b := by
  have hb' : ¬ b < 0 := not_lt.mpr hb.le
  have hbne : b ≠ 0 := ne_of_gt hb
  refine ⟨b * Real.tanh (x / (b * c)), ?_, ?_, ?_⟩
  · unfold tanh_saturation
    rw [if_neg hb', if_neg hc]
  · have hdiv : b * Real.tanh (x / (b * c)) / b = Real.tanh (x / (b * c)) := by
      field_simp
    rw [hdiv, arctanh_tanh]
    field_simp
  · rw [abs_mul, abs_of_pos hb]
    calc b * |Real.tanh (x / (b * c))| ≤ b * 1 :=
        mul_le_mul_of_nonneg_left (abs_tanh_le_one _) hb.le
      _ = b := mul_one b

/-- Claim C9 witness: at `x = 0`, `b = 1`, `c = 1` the round trip and the
range bound hold. -/
theorem C9_witness :
    ∃ y, tanh_saturation 0 1 1 = .ok y
      ∧ ((1 : ℝ) * 1) * arctanh (y / 1) = 0
      ∧ |y| ≤ 1 :=
  C9_tanh_saturation_inverse_range 0 1 1 (by norm_num) (by norm_num)
